import Mathlib

/-
Verification of the model resource cache (src/server/model_cache.py):
a bounded registry (ModelCache) of named, file-backed model artifacts with
LFU/LRU eviction, durable metadata, and an instance pool (ModelPool).

The filesystem is modelled as a partial map from paths to file data (size in
bytes plus the sha256 digest of the content).  Wall-clock times
(datetime.now()) are passed in explicitly as natural numbers; `datetime.min`
is 0 and every real timestamp is positive.  Each catalogue entry's metadata
is either a live ModelMetadata object (created by register_model) or a raw
dict repopulated from the metadata store by _load_cache_metadata; the
isinstance(metadata, ModelMetadata) guards of the source distinguish the two.
The python dict of entries is modelled as an insertion-ordered association
list with unique keys.
-/

deriving instance DecidableEq for Except

structure FileData where
  size : Nat
  hash : String
deriving DecidableEq

def Fs : Type := String → Option FileData

/-- os.path.basename for forward-slash paths. -/
def basename (p : String) : String := (p.splitOn "/").getLastD ""

/-- datetime.isoformat, modelled as an injective rendering of the timestamp. -/
def isofmt (t : Nat) : String := toString t

/-- ModelMetadata: descriptor of one on-disk model artifact (source lines 17-52). -/
structure ModelMetadata where
  model_path : String
  model_name : String
  file_size : Nat
  file_hash : String
  loaded_at : Option Nat
  last_used_at : Option Nat
  use_count : Nat
  is_loaded : Bool
deriving DecidableEq

/-- ModelMetadata._compute_hash: empty string when the file does not exist. -/
def compute_hash (fs : Fs) (model_path : String) : String :=
  match fs model_path with
  | some fd => fd.hash
  | none => ""

/-- ModelMetadata.__init__: file_size is 0 and file_hash "" for a missing file;
usage fields start empty. -/
def ModelMetadata.init (fs : Fs) (model_path : String) (nameOpt : Option String) :
    ModelMetadata :=
  { model_path := model_path
    model_name := nameOpt.getD (basename model_path)
    file_size := match fs model_path with | some fd => fd.size | none => 0
    file_hash := compute_hash fs model_path
    loaded_at := none
    last_used_at := none
    use_count := 0
    is_loaded := false }

/-- The serialized record kept in metadata.json for one model (ModelMetadata.to_dict). -/
structure MetaDict where
  model_name : String
  model_path : String
  file_size : Nat
  file_hash : String
  loaded_at : Option String
  last_used_at : Option String
  use_count : Nat
  is_loaded : Bool
deriving DecidableEq

/-- ModelMetadata.to_dict (source lines 41-52). -/
def ModelMetadata.to_dict (m : ModelMetadata) : MetaDict :=
  { model_name := m.model_name
    model_path := m.model_path
    file_size := m.file_size
    file_hash := m.file_hash
    loaded_at := m.loaded_at.map isofmt
    last_used_at := m.last_used_at.map isofmt
    use_count := m.use_count
    is_loaded := m.is_loaded }

/-- A catalogue entry's metadata field: either a live ModelMetadata object or
the raw dict stored by _load_cache_metadata. -/
inductive MetaEntry where
  | live (m : ModelMetadata)
  | raw (d : MetaDict)
deriving DecidableEq

def MetaEntry.isLive : MetaEntry → Bool
  | .live _ => true
  | .raw _ => false

/-- ModelCache state: the capacity bound and the insertion-ordered catalogue
(the 'instance' slot of each dict entry is always None in ModelCache and is
omitted; live instances belong to ModelPool). -/
structure ModelCache where
  max_models : Nat
  models : List (String × MetaEntry)
deriving DecidableEq

inductive CacheError where
  | fileNotFound (p : String)
  | attributeError
deriving DecidableEq

/-- python dict lookup on the association list (first match). -/
def dictFind {β : Type} : List (String × β) → String → Option β
  | [], _ => none
  | p :: rest, name => if p.1 = name then some p.2 else dictFind rest name

/-- python `del d[name]` (removes every pair with that key; with unique keys,
exactly the one). -/
def dictErase {β : Type} : List (String × β) → String → List (String × β)
  | [], _ => []
  | p :: rest, name =>
    if p.1 = name then dictErase rest name else p :: dictErase rest name

/-- in-place mutation of the value stored at a key. -/
def dictMapAt {β : Type} (ms : List (String × β)) (name : String) (f : β → β) :
    List (String × β) :=
  ms.map (fun p => if p.1 = name then (p.1, f p.2) else p)

/-- The eviction key of a live entry:
(use_count, last_used_at or datetime.min) from source line 154. -/
def keyOfLive (m : ModelMetadata) : Nat × Nat := (m.use_count, m.last_used_at.getD 0)

def liveKey : MetaEntry → Nat × Nat
  | .live m => keyOfLive m
  | .raw _ => (0, 0)

/-- Evaluating the eviction key over the catalogue: accessing .use_count on a
raw dict entry raises AttributeError, exactly as the source's min(...) does. -/
def keysOf : List (String × MetaEntry) → Except CacheError (List (String × (Nat × Nat)))
  | [] => .ok []
  | (n, .live m) :: rest => (keysOf rest).map (fun l => (n, keyOfLive m) :: l)
  | (_, .raw _) :: _ => .error .attributeError

/-- Lexicographic strict comparison of eviction keys (python tuple <). -/
def pairLt (a b : Nat × Nat) : Bool :=
  a.1 < b.1 || (a.1 == b.1 && a.2 < b.2)

/-- python min with a key function: keeps the earliest entry among minima. -/
def minItem : (String × (Nat × Nat)) → List (String × (Nat × Nat)) → String × (Nat × Nat)
  | best, [] => best
  | best, x :: rest => minItem (if pairLt x.2 best.2 then x else best) rest

/-- ModelCache._evict_least_used_model (source lines 146-159): no-op on an
empty catalogue, AttributeError if any entry is a raw dict, otherwise removes
the entry with the least (use_count, last_used_at or datetime.min). -/
def evict_least_used_model (ms : List (String × MetaEntry)) :
    Except CacheError (List (String × MetaEntry)) :=
  match keysOf ms with
  | .error e => .error e
  | .ok [] => .ok ms
  | .ok (k :: ks) => .ok (dictErase ms (minItem k ks).1)

/-- ModelCache.register_model (source lines 109-144).  Returns the outcome and
the catalogue state when control returns to the caller (unchanged when an
exception propagates, since the raise happens before any mutation). -/
def register_model (fs : Fs) (c : ModelCache) (model_path : String)
    (nameOpt : Option String) : Except CacheError String × ModelCache :=
  if (fs model_path).isSome then
    let model_name := nameOpt.getD (basename model_path)
    if (dictFind c.models model_name).isSome then (.ok model_name, c)
    else if c.max_models ≤ c.models.length then
      match evict_least_used_model c.models with
      | .error e => (.error e, c)
      | .ok ms =>
        (.ok model_name,
         ⟨c.max_models,
          ms ++ [(model_name, .live (ModelMetadata.init fs model_path (some model_name)))]⟩)
    else
      (.ok model_name,
       ⟨c.max_models,
        c.models ++ [(model_name, .live (ModelMetadata.init fs model_path (some model_name)))]⟩)
  else (.error (.fileNotFound model_path), c)

/-- The isinstance-guarded mutation of update_model_usage on one entry:
a live ModelMetadata gets its usage statistics bumped, a raw dict is left
alone. -/
def usageUpd (now : Nat) : MetaEntry → MetaEntry
  | .live m => .live { m with last_used_at := some now, use_count := m.use_count + 1 }
  | .raw d => .raw d

/-- The isinstance-guarded mutation of mark_model_loaded on one entry:
loaded_at is overwritten unconditionally. -/
def loadedUpd (now : Nat) : MetaEntry → MetaEntry
  | .live m => .live { m with is_loaded := true, loaded_at := some now }
  | .raw d => .raw d

/-- ModelCache.update_model_usage (source lines 184-192): only a live
ModelMetadata entry is updated (isinstance guard); raw dict entries and
absent names are untouched. -/
def update_model_usage (c : ModelCache) (model_name : String) (now : Nat) : ModelCache :=
  if (dictFind c.models model_name).isSome then
    ⟨c.max_models, dictMapAt c.models model_name (usageUpd now)⟩
  else c

/-- ModelCache.mark_model_loaded (source lines 194-202): sets is_loaded and
overwrites loaded_at with the current time on every call (isinstance guard as
above). -/
def mark_model_loaded (c : ModelCache) (model_name : String) (now : Nat) : ModelCache :=
  if (dictFind c.models model_name).isSome then
    ⟨c.max_models, dictMapAt c.models model_name (loadedUpd now)⟩
  else c

def entryDict : MetaEntry → MetaDict
  | .live m => m.to_dict
  | .raw d => d

/-- ModelCache.get_model_metadata (source lines 161-170). -/
def get_model_metadata (c : ModelCache) (model_name : String) : Option MetaDict :=
  (dictFind c.models model_name).map entryDict

/-- ModelCache.list_models (source lines 172-182). -/
def list_models (c : ModelCache) : List MetaDict :=
  c.models.map (fun p => entryDict p.2)

structure CacheStats where
  total_models : Nat
  loaded_models : Nat
  total_cache_size : Nat
  max_models : Nat
deriving DecidableEq

/-- ModelCache.get_cache_stats (source lines 204-223): size and loaded counts
range over live entries only (isinstance guards). -/
def get_cache_stats (c : ModelCache) : CacheStats :=
  { total_models := c.models.length
    loaded_models :=
      (c.models.filter (fun p => match p.2 with | .live m => m.is_loaded | .raw _ => false)).length
    total_cache_size :=
      (c.models.map (fun p => match p.2 with | .live m => m.file_size | .raw _ => 0)).sum
    max_models := c.max_models }

/-- ModelCache._save_cache_metadata (source lines 93-107): serializes the full
catalogue; live entries through to_dict, raw entries as they are. -/
def save_cache_metadata (c : ModelCache) : List (String × MetaDict) :=
  c.models.map (fun p => (p.1, entryDict p.2))

/-- ModelCache._load_cache_metadata (source lines 77-91): every store record
becomes a raw dict entry; no capacity check is applied. -/
def load_cache_metadata (store : List (String × MetaDict)) : List (String × MetaEntry) :=
  store.map (fun p => (p.1, .raw p.2))

/-- ModelCache.__init__ over an existing metadata store. -/
def cacheFromStore (maxModels : Nat) (store : List (String × MetaDict)) : ModelCache :=
  ⟨maxModels, load_cache_metadata store⟩

/-- ModelPool.get_model (source lines 234-240): on a hit, updates the
registry's usage statistics and returns the handle; on a miss, returns none
and leaves the registry alone. -/
def get_model {α : Type} (cache : ModelCache) (pool : List (String × α))
    (model_name : String) (now : Nat) : ModelCache × Option α :=
  match dictFind pool model_name with
  | some inst0 => (update_model_usage cache model_name now, some inst0)
  | none => (cache, none)

/-- The public registry operations named by the capacity invariant. -/
inductive RegOp where
  | register (model_path : String) (nameOpt : Option String)
  | getMetadata (model_name : String)
  | listModels
  | recordUse (model_name : String) (now : Nat)
  | markLoaded (model_name : String) (now : Nat)
  | stats
deriving DecidableEq

/-- The catalogue state when the operation returns (read-only operations and
propagated exceptions leave it unchanged). -/
def applyOp (fs : Fs) (c : ModelCache) : RegOp → ModelCache
  | .register model_path nameOpt => (register_model fs c model_path nameOpt).2
  | .getMetadata _ => c
  | .listModels => c
  | .recordUse model_name now => update_model_usage c model_name now
  | .markLoaded model_name now => mark_model_loaded c model_name now
  | .stats => c

def entryHash : MetaEntry → String
  | .live m => m.file_hash
  | .raw d => d.file_hash

def entrySize : MetaEntry → Nat
  | .live m => m.file_size
  | .raw d => d.file_size

def entryUseCount : MetaEntry → Nat
  | .live m => m.use_count
  | .raw d => d.use_count

def entryLoadedStr : MetaEntry → Option String
  | .live m => m.loaded_at.map isofmt
  | .raw d => d.loaded_at

def entryLastUsedStr : MetaEntry → Option String
  | .live m => m.last_used_at.map isofmt
  | .raw d => d.last_used_at

/-- Concrete filesystem fixture: two artifacts. -/
def fs0 : Fs := fun p =>
  if p = "/models/a.bin" then some ⟨4, "ha"⟩
  else if p = "/models/b.bin" then some ⟨6, "hb"⟩
  else if p = "/models/c.bin" then some ⟨8, "hc"⟩
  else none

/-- Concrete serialized record fixture. -/
def d0 : MetaDict := ⟨"a", "/models/a.bin", 4, "ha", none, none, 0, false⟩

/-- Concrete live metadata fixture. -/
def mdA : ModelMetadata := ⟨"/models/a.bin", "a", 4, "ha", none, none, 0, false⟩

theorem dictFind_map_val {β γ : Type} (g : β → γ) (ms : List (String × β)) (n : String) :
    dictFind (ms.map (fun p => (p.1, g p.2))) n = (dictFind ms n).map g := by
  induction ms with
  | nil => rfl
  | cons p rest ih =>
    by_cases h : p.1 = n
    · simp [dictFind, h]
    · simp [dictFind, h, ih]

theorem dictFind_none_of_not_mem {β : Type} {ms : List (String × β)} {n : String}
    (h : n ∉ ms.map Prod.fst) : dictFind ms n = none := by
  induction ms with
  | nil => rfl
  | cons p rest ih =>
    simp only [List.map_cons, List.mem_cons, not_or] at h
    have hp : p.1 ≠ n := fun he => h.1 he.symm
    simp [dictFind, hp, ih h.2]

theorem dictFind_mapAt_self {β : Type} (ms : List (String × β)) (n : String) (f : β → β) :
    dictFind (dictMapAt ms n f) n = (dictFind ms n).map f := by
  induction ms with
  | nil => rfl
  | cons p rest ih =>
    by_cases h : p.1 = n
    · simp [dictMapAt, dictFind, h]
    · simp only [dictMapAt, List.map_cons, if_neg h]
      simp only [dictMapAt] at ih
      simp [dictFind, h, ih]

theorem dictFind_mapAt_ne {β : Type} (ms : List (String × β)) (n n2 : String) (f : β → β)
    (h : n2 ≠ n) : dictFind (dictMapAt ms n f) n2 = dictFind ms n2 := by
  induction ms with
  | nil => rfl
  | cons p rest ih =>
    by_cases hp : p.1 = n
    · have hp2 : ¬ p.1 = n2 := by rw [hp]; exact fun he => h he.symm
      simp only [dictMapAt, List.map_cons, if_pos hp]
      simp only [dictMapAt] at ih
      simp [dictFind, hp2, ih]
    · simp only [dictMapAt, List.map_cons, if_neg hp]
      simp only [dictMapAt] at ih
      by_cases hp2 : p.1 = n2
      · simp [dictFind, hp2]
      · simp [dictFind, hp2, ih]

theorem dictMapAt_eq_of_find_none {β : Type} {ms : List (String × β)} {n : String} (f : β → β)
    (h : dictFind ms n = none) : dictMapAt ms n f = ms := by
  induction ms with
  | nil => rfl
  | cons p rest ih =>
    simp only [dictFind] at h
    by_cases hp : p.1 = n
    · simp [hp] at h
    · simp only [if_neg hp] at h
      simp only [dictMapAt, List.map_cons, if_neg hp]
      simp only [dictMapAt] at ih
      simp [ih h]

theorem dictMapAt_eq_of_fix {β : Type} {ms : List (String × β)} {n : String} {e : β} (f : β → β)
    (hnd : (ms.map Prod.fst).Nodup) (h : dictFind ms n = some e) (hf : f e = e) :
    dictMapAt ms n f = ms := by
  induction ms with
  | nil => simp [dictFind] at h
  | cons p rest ih =>
    simp only [List.map_cons, List.nodup_cons] at hnd
    simp only [dictFind] at h
    by_cases hp : p.1 = n
    · simp only [if_pos hp] at h
      have he : p.2 = e := by cases h; rfl
      have hrest : dictFind rest n = none := by
        apply dictFind_none_of_not_mem
        rw [← hp]; exact hnd.1
      have hmap : dictMapAt rest n f = rest := dictMapAt_eq_of_find_none f hrest
      simp only [dictMapAt, List.map_cons, if_pos hp]
      simp only [dictMapAt] at hmap
      rw [hmap, he, hf, ← he, Prod.mk.eta]
    · simp only [if_neg hp] at h
      simp only [dictMapAt, List.map_cons, if_neg hp]
      simp only [dictMapAt] at ih
      rw [ih hnd.2 h]

theorem dictMapAt_length {β : Type} (ms : List (String × β)) (n : String) (f : β → β) :
    (dictMapAt ms n f).length = ms.length := by
  simp [dictMapAt]

theorem dictErase_eq_of_not_mem {β : Type} {ms : List (String × β)} {n : String}
    (h : n ∉ ms.map Prod.fst) : dictErase ms n = ms := by
  induction ms with
  | nil => rfl
  | cons p rest ih =>
    simp only [List.map_cons, List.mem_cons, not_or] at h
    have hp : p.1 ≠ n := fun he => h.1 he.symm
    simp [dictErase, hp, ih h.2]

theorem dictErase_length_le {β : Type} (ms : List (String × β)) (n : String) :
    (dictErase ms n).length ≤ ms.length := by
  induction ms with
  | nil => simp [dictErase]
  | cons p rest ih =>
    simp only [dictErase]
    by_cases h : p.1 = n
    · simp only [if_pos h, List.length_cons]
      omega
    · simp only [if_neg h, List.length_cons]
      omega

theorem dictErase_length_lt {β : Type} {ms : List (String × β)} {n : String}
    (h : n ∈ ms.map Prod.fst) : (dictErase ms n).length < ms.length := by
  induction ms with
  | nil => simp at h
  | cons p rest ih =>
    simp only [List.map_cons, List.mem_cons] at h
    simp only [dictErase]
    by_cases hp : p.1 = n
    · simp only [if_pos hp, List.length_cons]
      have := dictErase_length_le rest n
      omega
    · rcases h with h1 | h1
      · exact absurd h1.symm hp
      · simp only [if_neg hp, List.length_cons]
        have := ih h1
        omega

theorem dictErase_length_nodup {β : Type} {ms : List (String × β)} {n : String}
    (hnd : (ms.map Prod.fst).Nodup) (h : n ∈ ms.map Prod.fst) :
    (dictErase ms n).length + 1 = ms.length := by
  induction ms with
  | nil => simp at h
  | cons p rest ih =>
    simp only [List.map_cons, List.nodup_cons, List.mem_cons] at hnd h
    simp only [dictErase]
    by_cases hp : p.1 = n
    · have : dictErase rest n = rest := by
        apply dictErase_eq_of_not_mem
        rw [← hp]; exact hnd.1
      simp [hp, this]
    · rcases h with h1 | h1
      · exact absurd h1.symm hp
      · simp only [if_neg hp, List.length_cons]
        have := ih hnd.2 h1
        omega

theorem pairLt_irrefl (a : Nat × Nat) : pairLt a a = false := by
  simp [pairLt]

theorem pairLt_false_trans {a b c : Nat × Nat}
    (h1 : pairLt a b = false) (h2 : pairLt b c = false) : pairLt a c = false := by
  simp only [pairLt, Bool.or_eq_false_iff, Bool.and_eq_false_iff, decide_eq_false_iff_not,
    beq_eq_false_iff_ne, ne_eq, beq_iff_eq, Bool.or_eq_true, Bool.and_eq_true,
    decide_eq_true_eq] at *
  omega

theorem pairLt_false_of_gt {y k r : Nat × Nat}
    (h1 : pairLt y k = true) (h2 : pairLt y r = false) : pairLt k r = false := by
  simp only [pairLt, Bool.or_eq_false_iff, Bool.and_eq_false_iff, decide_eq_false_iff_not,
    beq_eq_false_iff_ne, ne_eq, beq_iff_eq, Bool.or_eq_true, Bool.and_eq_true,
    decide_eq_true_eq] at *
  omega

theorem minItem_mem (k : String × (Nat × Nat)) (ks : List (String × (Nat × Nat))) :
    minItem k ks = k ∨ minItem k ks ∈ ks := by
  induction ks generalizing k with
  | nil => left; rfl
  | cons x rest ih =>
    simp only [minItem]
    by_cases h : pairLt x.2 k.2 = true
    · simp only [if_pos h]
      rcases ih x with h1 | h1
      · right; simp [h1]
      · right; simp [h1]
    · simp only [if_neg h]
      rcases ih k with h1 | h1
      · left; exact h1
      · right; simp [h1]

theorem minItem_min (k : String × (Nat × Nat)) (ks : List (String × (Nat × Nat))) :
    ∀ x, (x = k ∨ x ∈ ks) → pairLt x.2 (minItem k ks).2 = false := by
  induction ks generalizing k with
  | nil =>
    intro x hx
    rcases hx with rfl | h
    · simp [minItem, pairLt_irrefl]
    · simp at h
  | cons y rest ih =>
    intro x hx
    simp only [minItem]
    by_cases h : pairLt y.2 k.2 = true
    · simp only [if_pos h]
      have hb : pairLt y.2 (minItem y rest).2 = false := ih y y (Or.inl rfl)
      rcases hx with rfl | hx
      · exact pairLt_false_of_gt h hb
      · rcases List.mem_cons.mp hx with rfl | hx
        · exact hb
        · exact ih y x (Or.inr hx)
    · simp only [if_neg h]
      have hb : pairLt k.2 (minItem k rest).2 = false := ih k k (Or.inl rfl)
      rcases hx with rfl | hx
      · exact hb
      · rcases List.mem_cons.mp hx with rfl | hx
        · exact pairLt_false_trans (by rwa [Bool.not_eq_true] at h) hb
        · exact ih k x (Or.inr hx)

theorem keysOf_names {ms : List (String × MetaEntry)} {ks : List (String × (Nat × Nat))}
    (h : keysOf ms = .ok ks) : ks.map Prod.fst = ms.map Prod.fst := by
  induction ms generalizing ks with
  | nil =>
    simp only [keysOf] at h
    cases h
    rfl
  | cons p rest ih =>
    obtain ⟨n, e⟩ := p
    cases e with
    | live m =>
      simp only [keysOf] at h
      cases hr : keysOf rest with
      | error e2 => rw [hr] at h; simp [Except.map] at h
      | ok l =>
        rw [hr] at h
        simp only [Except.map] at h
        cases h
        simp [ih hr]
    | raw d => simp [keysOf] at h

theorem keysOf_allLive {ms : List (String × MetaEntry)}
    (h : ∀ p ∈ ms, p.2.isLive = true) :
    keysOf ms = .ok (ms.map (fun p => (p.1, liveKey p.2))) := by
  induction ms with
  | nil => rfl
  | cons p rest ih =>
    obtain ⟨n, e⟩ := p
    cases e with
    | live m =>
      have hr := ih (fun q hq => h q (by simp [hq]))
      simp [keysOf, hr, Except.map, liveKey]
    | raw d =>
      have := h (n, .raw d) (by simp)
      simp [MetaEntry.isLive] at this

theorem evict_ok_length_lt {ms ms2 : List (String × MetaEntry)}
    (h : evict_least_used_model ms = .ok ms2) (hne : ms ≠ []) :
    ms2.length < ms.length := by
  unfold evict_least_used_model at h
  cases hk : keysOf ms with
  | error e => rw [hk] at h; simp at h
  | ok ks =>
    rw [hk] at h
    cases ks with
    | nil =>
      have hn := keysOf_names hk
      simp only [List.map_nil] at hn
      have : ms = [] := by
        cases ms with
        | nil => rfl
        | cons q qs => simp at hn
      exact absurd this hne
    | cons k ks2 =>
      have hms2 : ms2 = dictErase ms (minItem k ks2).1 := by
        cases h; rfl
      subst hms2
      apply dictErase_length_lt
      have hn := keysOf_names hk
      have hm : (minItem k ks2).1 ∈ (k :: ks2).map Prod.fst := by
        rcases minItem_mem k ks2 with h1 | h1
        · simp [h1]
        · simp only [List.map_cons, List.mem_cons]
          right
          exact List.mem_map_of_mem Prod.fst h1
      rw [hn] at hm
      exact hm

theorem update_model_usage_length (c : ModelCache) (n : String) (t : Nat) :
    (update_model_usage c n t).models.length = c.models.length := by
  unfold update_model_usage
  by_cases h : (dictFind c.models n).isSome
  · simp [h, dictMapAt]
  · simp [h]

theorem mark_model_loaded_length (c : ModelCache) (n : String) (t : Nat) :
    (mark_model_loaded c n t).models.length = c.models.length := by
  unfold mark_model_loaded
  by_cases h : (dictFind c.models n).isSome
  · simp [h, dictMapAt]
  · simp [h]

/-- C10: constructing a ModelMetadata for a path that does not reference an
existing file does not fail: it yields file_size 0 and file_hash "" (the
existence precondition is enforced only by register_model). -/
theorem C10_metadata_missing_file (fs : Fs) (model_path : String) (nameOpt : Option String)
    (h : fs model_path = none) :
    (ModelMetadata.init fs model_path nameOpt).file_size = 0 ∧
    (ModelMetadata.init fs model_path nameOpt).file_hash = "" := by
  constructor
  · simp [ModelMetadata.init, h]
  · simp [ModelMetadata.init, compute_hash, h]

theorem C10_witness :
    (ModelMetadata.init fs0 "/missing.bin" (some "m")).file_size = 0 ∧
    (ModelMetadata.init fs0 "/missing.bin" (some "m")).file_hash = "" :=
  C10_metadata_missing_file fs0 "/missing.bin" (some "m") (by decide)

/-- C8: register_model with a path that does not reference an existing file
raises FileNotFoundError and leaves the catalogue unchanged. -/
theorem C8_register_missing_path (fs : Fs) (c : ModelCache) (model_path : String)
    (nameOpt : Option String) (h : fs model_path = none) :
    register_model fs c model_path nameOpt = (.error (.fileNotFound model_path), c) := by
  simp [register_model, h]

theorem C8_witness :
    register_model fs0 ⟨3, [("a", .live mdA)]⟩ "/missing.bin" (some "x") =
      (.error (.fileNotFound "/missing.bin"), ⟨3, [("a", .live mdA)]⟩) :=
  C8_register_missing_path fs0 ⟨3, [("a", .live mdA)]⟩ "/missing.bin" (some "x") (by decide)

/-- C4: re-registering an already-present name over an existing path returns
that name and leaves the registry completely unchanged — no eviction — even
when the catalogue is at full capacity. -/
theorem C4_reregister_noop (fs : Fs) (c : ModelCache) (model_path name : String)
    (hfs : (fs model_path).isSome = true)
    (hmem : (dictFind c.models name).isSome = true) :
    register_model fs c model_path (some name) = (.ok name, c) := by
  simp [register_model, hfs, hmem]

theorem C4_witness :
    register_model fs0 ⟨1, [("a", .live mdA)]⟩ "/models/a.bin" (some "a") =
      (.ok "a", ⟨1, [("a", .live mdA)]⟩) :=
  C4_reregister_noop fs0 ⟨1, [("a", .live mdA)]⟩ "/models/a.bin" "a" (by decide) (by decide)

/-- C3 as stated is false on the code: a second mark_model_loaded call for the
same name overwrites loaded_at with the new current time (here 5 becomes 7),
so the first-load timestamp is not stable. -/
theorem C3_counterexample :
    (dictFind (mark_model_loaded (mark_model_loaded ⟨3, [("a", .live mdA)]⟩ "a" 5) "a" 7).models
        "a").map entryLoadedStr = some (some "7") ∧
    (dictFind (mark_model_loaded ⟨3, [("a", .live mdA)]⟩ "a" 5).models
        "a").map entryLoadedStr = some (some "5") := by
  decide

/-- C3 amended: mark_model_loaded sets is_loaded to true and overwrites
loaded_at with the current time on every call for an entry with live
metadata; it is a no-op for an absent name and for an entry repopulated from
the store as a raw dict, and no other entry changes. -/
theorem C3_markLoaded_amended (c : ModelCache) (name : String) (now : Nat)
    (hnd : (c.models.map Prod.fst).Nodup) :
    (dictFind c.models name = none → mark_model_loaded c name now = c) ∧
    (∀ d, dictFind c.models name = some (.raw d) → mark_model_loaded c name now = c) ∧
    (∀ m, dictFind c.models name = some (.live m) →
      dictFind (mark_model_loaded c name now).models name =
        some (.live { m with is_loaded := true, loaded_at := some now }) ∧
      (∀ n2, n2 ≠ name →
        dictFind (mark_model_loaded c name now).models n2 = dictFind c.models n2) ∧
      (mark_model_loaded c name now).models.length = c.models.length) := by
  refine ⟨?_, ?_, ?_⟩
  · intro h
    simp [mark_model_loaded, h]
  · intro d h
    have hfix : dictMapAt c.models name (loadedUpd now) = c.models :=
      dictMapAt_eq_of_fix (loadedUpd now) hnd h rfl
    simp [mark_model_loaded, h, hfix]
  · intro m h
    have hs : (dictFind c.models name).isSome = true := by simp [h]
    refine ⟨?_, ?_, ?_⟩
    · simp [mark_model_loaded, hs, dictFind_mapAt_self, h, loadedUpd]
    · intro n2 hne
      simp [mark_model_loaded, hs, dictFind_mapAt_ne _ _ _ _ hne]
    · simp [mark_model_loaded, hs, dictMapAt_length]

theorem C3_witness :
    dictFind (mark_model_loaded ⟨3, [("a", .live mdA)]⟩ "a" 5).models "a" =
      some (.live { mdA with is_loaded := true, loaded_at := some 5 }) :=
  ((C3_markLoaded_amended ⟨3, [("a", .live mdA)]⟩ "a" 5 (by decide)).2.2 mdA (by decide)).1

/-- C5 as stated is false on the code: for an entry repopulated from the
metadata store the metadata is a raw dict, the isinstance guard fails, and
recordUse leaves the registry (and the entry's use_count) unchanged even
though the name is present. -/
theorem C5_counterexample :
    (dictFind (cacheFromStore 3 [("a", d0)]).models "a").isSome = true ∧
    update_model_usage (cacheFromStore 3 [("a", d0)]) "a" 7 = cacheFromStore 3 [("a", d0)] ∧
    (dictFind (update_model_usage (cacheFromStore 3 [("a", d0)]) "a" 7).models "a").map
        entryUseCount = some 0 := by
  decide

/-- C5 amended: recordUse sets last_used_at to the current time and increments
use_count only for an entry whose metadata is a live ModelMetadata object;
for an absent name, and for an entry repopulated from the store as a raw
dict, it is a no-op raising no error; in every case no other entry changes. -/
theorem C5_recordUse_amended (c : ModelCache) (name : String) (now : Nat)
    (hnd : (c.models.map Prod.fst).Nodup) :
    (dictFind c.models name = none → update_model_usage c name now = c) ∧
    (∀ d, dictFind c.models name = some (.raw d) → update_model_usage c name now = c) ∧
    (∀ m, dictFind c.models name = some (.live m) →
      dictFind (update_model_usage c name now).models name =
        some (.live { m with last_used_at := some now, use_count := m.use_count + 1 }) ∧
      (∀ n2, n2 ≠ name →
        dictFind (update_model_usage c name now).models n2 = dictFind c.models n2) ∧
      (update_model_usage c name now).models.length = c.models.length) := by
  refine ⟨?_, ?_, ?_⟩
  · intro h
    simp [update_model_usage, h]
  · intro d h
    have hfix : dictMapAt c.models name (usageUpd now) = c.models :=
      dictMapAt_eq_of_fix (usageUpd now) hnd h rfl
    simp [update_model_usage, h, hfix]
  · intro m h
    have hs : (dictFind c.models name).isSome = true := by simp [h]
    refine ⟨?_, ?_, ?_⟩
    · simp [update_model_usage, hs, dictFind_mapAt_self, h, usageUpd]
    · intro n2 hne
      simp [update_model_usage, hs, dictFind_mapAt_ne _ _ _ _ hne]
    · simp [update_model_usage, hs, dictMapAt_length]

theorem C5_witness :
    dictFind (update_model_usage ⟨3, [("a", .live mdA)]⟩ "a" 9).models "a" =
      some (.live { mdA with last_used_at := some 9, use_count := 1 }) :=
  ((C5_recordUse_amended ⟨3, [("a", .live mdA)]⟩ "a" 9 (by decide)).2.2 mdA (by decide)).1

/-- C6: pool get on a hit forwards to registry.recordUse (so a hit on a live
registry entry increments its use_count) and returns the stored handle; on a
miss it returns none and leaves the registry entirely unchanged. -/
theorem C6_pool_get (α : Type) (cache : ModelCache) (pool : List (String × α))
    (name : String) (now : Nat) :
    (∀ h, dictFind pool name = some h →
      get_model cache pool name now = (update_model_usage cache name now, some h) ∧
      ∀ m, dictFind cache.models name = some (.live m) →
        dictFind (get_model cache pool name now).1.models name =
          some (.live { m with last_used_at := some now, use_count := m.use_count + 1 })) ∧
    (dictFind pool name = none → get_model cache pool name now = (cache, none)) := by
  constructor
  · intro h hh
    constructor
    · simp [get_model, hh]
    · intro m hm
      have hs : (dictFind cache.models name).isSome = true := by simp [hm]
      simp [get_model, hh, update_model_usage, hs, dictFind_mapAt_self, hm, usageUpd]
  · intro h
    simp [get_model, h]

theorem C6_witness :
    (get_model (⟨3, [("a", .live mdA)]⟩ : ModelCache) [("a", (42 : Nat))] "a" 9 =
      (update_model_usage ⟨3, [("a", .live mdA)]⟩ "a" 9, some 42)) ∧
    dictFind (get_model (⟨3, [("a", .live mdA)]⟩ : ModelCache) [("a", (42 : Nat))] "a" 9).1.models
        "a" = some (.live { mdA with last_used_at := some 9, use_count := 1 }) := by
  have h := (C6_pool_get Nat ⟨3, [("a", .live mdA)]⟩ [("a", (42 : Nat))] "a" 9).1 42 (by decide)
  exact ⟨h.1, h.2 mdA (by decide)⟩

/-- C7: serializing the catalogue to the metadata store and loading the store
into a fresh registry reproduces the same names in order and, per name, the
same content hash, file size, use count, and serialized timestamps. -/
theorem C7_roundtrip (c : ModelCache) (m2 : Nat) :
    (cacheFromStore m2 (save_cache_metadata c)).models.map Prod.fst =
      c.models.map Prod.fst ∧
    ∀ n e, dictFind c.models n = some e →
      ∃ e2, dictFind (cacheFromStore m2 (save_cache_metadata c)).models n = some e2 ∧
        entryHash e2 = entryHash e ∧ entrySize e2 = entrySize e ∧
        entryUseCount e2 = entryUseCount e ∧
        entryLoadedStr e2 = entryLoadedStr e ∧ entryLastUsedStr e2 = entryLastUsedStr e := by
  have hmodels : (cacheFromStore m2 (save_cache_metadata c)).models =
      c.models.map (fun p => (p.1, .raw (entryDict p.2))) := by
    simp only [cacheFromStore, load_cache_metadata, save_cache_metadata, List.map_map]
    rfl
  constructor
  · rw [hmodels, List.map_map]
    rfl
  · intro n e h
    refine ⟨.raw (entryDict e), ?_, ?_, ?_, ?_, ?_, ?_⟩
    · rw [hmodels, dictFind_map_val (fun x => MetaEntry.raw (entryDict x)) c.models n, h]
      rfl
    · cases e <;> rfl
    · cases e <;> rfl
    · cases e <;> rfl
    · cases e <;> rfl
    · cases e <;> rfl

theorem C7_witness :
    ∃ e2, dictFind (cacheFromStore 5 (save_cache_metadata
        ⟨3, [("a", .live { mdA with use_count := 2, loaded_at := some 4 })]⟩)).models "a" =
        some e2 ∧
      entryHash e2 = entryHash (.live { mdA with use_count := 2, loaded_at := some 4 }) ∧
      entrySize e2 = entrySize (.live { mdA with use_count := 2, loaded_at := some 4 }) ∧
      entryUseCount e2 = entryUseCount (.live { mdA with use_count := 2, loaded_at := some 4 }) ∧
      entryLoadedStr e2 = entryLoadedStr (.live { mdA with use_count := 2, loaded_at := some 4 }) ∧
      entryLastUsedStr e2 =
        entryLastUsedStr (.live { mdA with use_count := 2, loaded_at := some 4 }) :=
  (C7_roundtrip ⟨3, [("a", .live { mdA with use_count := 2, loaded_at := some 4 })]⟩ 5).2
    "a" (.live { mdA with use_count := 2, loaded_at := some 4 }) (by decide)

/-- C9: contrary to the claim, eviction can fail on a reachable state.  With
the catalogue repopulated from the metadata store, every entry's metadata is
a raw dict, so the eviction key access raises AttributeError: register at
capacity propagates the error and removes nothing. -/
theorem C9_repopulated_eviction_raises :
    register_model fs0 (cacheFromStore 1 [("a", d0)]) "/models/b.bin" (some "b") =
      (.error .attributeError, cacheFromStore 1 [("a", d0)]) ∧
    evict_least_used_model (cacheFromStore 1 [("a", d0)]).models = .error .attributeError := by
  decide

/-- C1 as stated is false on the code: _load_cache_metadata repopulates the
catalogue with no capacity check, so a store holding three records and a
registry with max_models 2 yield a catalogue of three entries, and a public
operation (stats) returns with the bound violated. -/
theorem C1_counterexample :
    ¬ ((applyOp fs0 (cacheFromStore 2 [("a", d0), ("b", d0), ("c", d0)]) .stats).models.length ≤
        (cacheFromStore 2 [("a", d0), ("b", d0), ("c", d0)]).max_models) := by
  decide

/-- C1 amended: for a registry with positive capacity whose catalogue already
satisfies the bound, every public operation (register, getMetadata,
listModels, recordUse, markLoaded, stats) returns with at most max_models
entries; repopulation from the durable store enforces no such bound, so the
invariant extends to a repopulated registry only when the store itself holds
at most max_models records. -/
theorem C1_capacity_preserved (fs : Fs) (c : ModelCache) (op : RegOp)
    (hpos : 0 < c.max_models) (hle : c.models.length ≤ c.max_models) :
    (applyOp fs c op).models.length ≤ c.max_models := by
  cases op with
  | register model_path nameOpt =>
    simp only [applyOp]
    unfold register_model
    by_cases h1 : (fs model_path).isSome
    · simp only [h1, if_true]
      by_cases h2 : (dictFind c.models (nameOpt.getD (basename model_path))).isSome
      · simp only [h2, if_true]
        exact hle
      · simp only [h2, Bool.false_eq_true, if_false]
        by_cases h3 : c.max_models ≤ c.models.length
        · have hlen : c.models.length = c.max_models := le_antisymm hle h3
          simp only [h3, if_true]
          cases hev : evict_least_used_model c.models with
          | error e => exact hle
          | ok ms =>
            have hne : c.models ≠ [] := by
              intro hnil
              rw [hnil] at hlen
              simp at hlen
              omega
            have hlt := evict_ok_length_lt hev hne
            simp only [List.length_append, List.length_cons, List.length_nil]
            omega
        · simp only [h3, if_false]
          simp only [List.length_append, List.length_cons, List.length_nil]
          omega
    · simp only [h1, Bool.false_eq_true, if_false]
      exact hle
  | getMetadata n => exact hle
  | listModels => exact hle
  | recordUse n t =>
    simp only [applyOp]
    rw [update_model_usage_length]
    exact hle
  | markLoaded n t =>
    simp only [applyOp]
    rw [mark_model_loaded_length]
    exact hle
  | stats => exact hle

theorem C1_witness :
    (applyOp fs0 ⟨2, [("a", .live mdA)]⟩ (.register "/models/b.bin" (some "b"))).models.length ≤
      (⟨2, [("a", .live mdA)]⟩ : ModelCache).max_models :=
  C1_capacity_preserved fs0 ⟨2, [("a", .live mdA)]⟩ (.register "/models/b.bin" (some "b"))
    (by decide) (by decide)

/-- C2: for a registry at capacity whose entries carry live metadata,
registering a genuinely new name over an existing path removes exactly one
pre-existing entry — one minimizing the pair (use_count, last_used_at with a
never-used entry treated as the minimal timestamp) — before inserting, so
that exactly max_models entries remain. -/
theorem C2_eviction_at_capacity (fs : Fs) (c : ModelCache) (model_path name : String)
    (hnd : (c.models.map Prod.fst).Nodup)
    (hlive : ∀ p ∈ c.models, p.2.isLive = true)
    (hcap : c.models.length = c.max_models)
    (hpos : 0 < c.max_models)
    (hfs : (fs model_path).isSome = true)
    (hnew : dictFind c.models name = none) :
    ∃ v ∈ c.models,
      (∀ q ∈ c.models, pairLt (liveKey q.2) (liveKey v.2) = false) ∧
      register_model fs c model_path (some name) =
        (.ok name,
         ⟨c.max_models,
          dictErase c.models v.1 ++
            [(name, .live (ModelMetadata.init fs model_path (some name)))]⟩) ∧
      (dictErase c.models v.1 ++
        [(name, MetaEntry.live (ModelMetadata.init fs model_path (some name)))]).length =
        c.max_models := by
  cases hkd : c.models.map (fun p => (p.1, liveKey p.2)) with
  | nil =>
    have : c.models = [] := by
      cases hms : c.models with
      | nil => rfl
      | cons q qs => rw [hms] at hkd; simp at hkd
    rw [this] at hcap
    simp at hcap
    omega
  | cons k ks =>
    have hk : keysOf c.models = .ok (k :: ks) := by
      rw [keysOf_allLive hlive, hkd]
    have hev : evict_least_used_model c.models =
        .ok (dictErase c.models (minItem k ks).1) := by
      unfold evict_least_used_model
      rw [hk]
    have hmm : minItem k ks ∈ c.models.map (fun p => (p.1, liveKey p.2)) := by
      rw [hkd]
      exact List.mem_cons.mpr (minItem_mem k ks)
    obtain ⟨v, hvmem, hvf⟩ := List.mem_map.mp hmm
    have hv1 : v.1 = (minItem k ks).1 := by rw [← hvf]
    have hv2 : liveKey v.2 = (minItem k ks).2 := by rw [← hvf]
    refine ⟨v, hvmem, ?_, ?_, ?_⟩
    · intro q hq
      have hqmem : (q.1, liveKey q.2) ∈ k :: ks := by
        rw [← hkd]
        exact List.mem_map_of_mem _ hq
      have := minItem_min k ks (q.1, liveKey q.2) (List.mem_cons.mp hqmem)
      rw [hv2]
      exact this
    · have hcapb : c.max_models ≤ c.models.length := le_of_eq hcap.symm
      rw [hv1]
      simp [register_model, hfs, hnew, hcapb, hev]
    · have hvn : v.1 ∈ c.models.map Prod.fst := List.mem_map_of_mem Prod.fst hvmem
      have := dictErase_length_nodup hnd hvn
      simp only [List.length_append, List.length_cons, List.length_nil]
      omega

/-- A capacity-2 registry at capacity with two live entries: "a" heavily used,
"b" the least used. -/
def mdHot : ModelMetadata := ⟨"/models/a.bin", "a", 4, "ha", none, some 5, 3, false⟩

def mdCold : ModelMetadata := ⟨"/models/b.bin", "b", 6, "hb", none, some 9, 1, false⟩

def cacheW2 : ModelCache := ⟨2, [("a", .live mdHot), ("b", .live mdCold)]⟩

theorem C2_witness :
    ∃ v ∈ cacheW2.models,
      (∀ q ∈ cacheW2.models, pairLt (liveKey q.2) (liveKey v.2) = false) ∧
      register_model fs0 cacheW2 "/models/c.bin" (some "c") =
        (.ok "c",
         ⟨cacheW2.max_models,
          dictErase cacheW2.models v.1 ++
            [("c", .live (ModelMetadata.init fs0 "/models/c.bin" (some "c")))]⟩) ∧
      (dictErase cacheW2.models v.1 ++
        [("c", MetaEntry.live (ModelMetadata.init fs0 "/models/c.bin" (some "c")))]).length =
        cacheW2.max_models :=
  C2_eviction_at_capacity fs0 cacheW2 "/models/c.bin" "c" (by decide) (by decide) (by decide)
    (by decide) (by decide) (by decide)
